import Mathlib

/-!
Shallow embedding of `peaks_to_bedgraph.py` (repository `Cdip-RegEmb`, file
`src/Downstream_Analysis/5. Chromatin Dynamics with Kmeans Clustering/peaks_to_bedgraph.py`).

The script loads a tab-separated value table (`pd.read_csv(tsv, sep='\t')`,
header row, key column `peak_id`) and a headerless four-column coordinate
table (`pd.read_csv(bed, sep='\t', names=['Chromosome','Start','End','peak_id'])`),
then for every column of the value table calls `column_to_bedgraph`, which

  * is a no-op when the column is `peak_id`;
  * selects `tsv[['peak_id', column_name]]`;
  * inner-joins it with the coordinate table via `pd.merge(t_df, bed, on=['peak_id'])`
    (pandas inner merge: left row order is preserved, for each left row the
    matching right rows appear in right order, unmatched keys are dropped,
    duplicated keys multiply cartesianly; columns whose name collides between
    the two frames are renamed with `_x`/`_y` suffixes, which makes the
    subsequent reindex `t_df.loc[:,['Chromosome','Start','End', column_name]]`
    raise a `KeyError`);
  * drops `peak_id` and reorders to `(Chromosome, Start, End, value)`;
  * builds the output path from `arg[1].split("/")`: every element but the
    last, each with `"/"` appended, concatenated, then `column_name + '.bedgraph'`;
  * writes with `to_csv(path, sep='\t', header=False, index=False, doublequote=False)`:
    the Python csv writer with QUOTE_MINIMAL quoting, which emits a field
    verbatim unless it contains the delimiter, CR or LF (then it is wrapped
    in double quotes) or contains a double quote (then, as `doublequote=False`
    and no `escapechar` is set, the writer raises "need to escape").

Cells are modelled as the strings held by the loaded frames; a file system is
modelled as a partial map from paths to contents, an output file as its path
paired with its list of emitted lines.  The loader model covers the
unquoted-input happy path of `read_csv`: blank lines are skipped, short rows
are padded (pandas pads them with NaN, written back as the empty string),
over-long rows are rejected as parse errors, duplicated header names are
rejected (pandas would rename them, so a loaded frame never has two equal
column labels).  Cells containing tabs, quotes or newlines — reachable in
pandas through quoted input fields — are covered by quantifying directly
over loaded tables.
-/

deriving instance DecidableEq for Except

/-- Failure kinds surfaced by the script: missing input file, unparsable
input, a `KeyError` from column selection or reindexing after a name
collision, and the csv writer's "need to escape" error. -/
inductive Err where
  | fileNotFound
  | parseError
  | keyError
  | csvNeedEscape
deriving DecidableEq

/-- One row of the coordinate table, as loaded with
`names=['Chromosome','Start','End','peak_id']`. -/
structure BedRow where
  Chromosome : String
  Start : String
  End : String
  peak_id : String
deriving DecidableEq

/-- The loaded value table: its ordered column labels and its rows
(each row a list of cells, one per column). -/
structure TsvTable where
  header : List String
  rows : List (List String)
deriving DecidableEq

/-- Cell of row `r` in the column labelled `name` (first occurrence), the
way `tsv[...]` selects by label; absent positions read as the empty string
(the serialization pandas gives NaN). -/
def cellOf (header : List String) (name : String) (r : List String) : String :=
  r.getD (header.indexOf name) ""

/-- Char membership in a string, used to model the csv writer's checks. -/
def hasChar (s : String) (c : Char) : Bool := s.data.contains c

/-- One field through the csv writer configured by
`to_csv(..., sep='\t', doublequote=False)` (QUOTE_MINIMAL): a field holding a
double quote needs escaping and raises; a field holding the delimiter, CR or
LF is wrapped in double quotes; anything else is emitted verbatim. -/
def serializeField (s : String) : Except Err String :=
  if hasChar s '"' then .error .csvNeedEscape
  else if hasChar s '\t' || hasChar s '\r' || hasChar s '\n' then
    .ok ("\"" ++ s ++ "\"")
  else .ok s

/-- Effectful map over a list in `Except`, stopping at the first error. -/
def mapExcept (f : α → Except Err β) : List α → Except Err (List β)
  | [] => .ok []
  | a :: as =>
    match f a with
    | .error e => .error e
    | .ok b =>
      match mapExcept f as with
      | .error e => .error e
      | .ok bs => .ok (b :: bs)

/-- Fields of one output record joined by the tab delimiter. -/
def joinTab : List String → String
  | [] => ""
  | [f] => f
  | f :: fs => f ++ "\t" ++ joinTab fs

/-- One output line: every field through the csv writer, joined by tabs.
`header=False` and `index=False` are fixed in the call, so a line holds the
record's fields and nothing else. -/
def serializeRow (row : List String) : Except Err String :=
  match mapExcept serializeField row with
  | .error e => .error e
  | .ok fs => .ok (joinTab fs)

/-- Rows of the joined, projected frame for one value column: pandas' inner
merge on `peak_id` keeps the left (value-table) row order, pairs each value
row with the matching coordinate rows in their stored order, drops rows with
unmatched keys, and the script then reorders to
`(Chromosome, Start, End, value)`. -/
def bedgraphRows (c : String) (tsv : TsvTable) (bed : List BedRow) : List (List String) :=
  tsv.rows.flatMap fun r =>
    (bed.filter fun b => b.peak_id == cellOf tsv.header "peak_id" r).map fun b =>
      [b.Chromosome, b.Start, b.End, cellOf tsv.header c r]

/-- Splitting of a character list at every occurrence of `sep`, keeping empty
pieces, as Python's `str.split` does for a one-character separator. -/
def splitChar (sep : Char) : List Char → List (List Char)
  | [] => [[]]
  | c :: cs =>
    let r := splitChar sep cs
    if c = sep then [] :: r
    else
      match r with
      | [] => [[c]]
      | x :: xs => (c :: x) :: xs

/-- Python's `s.split("/")`. -/
def pySplitSlash (s : String) : List String :=
  (splitChar '/' s.data).map String.mk

/-- The script's output-directory string: `l = arg[1].split("/")`, then the
elements of `l[:-1]`, each with `"/"` appended, concatenated in order. -/
def outDir (p : String) : String :=
  (((pySplitSlash p).dropLast).map (fun x => x ++ "/")).foldl (· ++ ·) ""

/-- The path the script writes a column to: directory string of the first
program argument followed by `column_name + '.bedgraph'`. -/
def outputPath (p c : String) : String := outDir p ++ c ++ ".bedgraph"

/-- The per-column operation `column_to_bedgraph(column_name, tsv, bed)`:
`none` models the guarded no-op for the key column; otherwise the result is
either the written file (path and lines) or the exception the call raises.
Selection `tsv[['peak_id', column_name]]` raises a `KeyError` when a label is
absent; when `column_name` is one of the coordinate labels, the merge renames
the colliding columns with suffixes and the reindex raises a `KeyError`. -/
def column_to_bedgraph (arg1 c : String) (tsv : TsvTable) (bed : List BedRow) :
    Option (Except Err (String × List String)) :=
  if c = "peak_id" then none
  else some (
    if "peak_id" ∈ tsv.header ∧ c ∈ tsv.header then
      if c = "Chromosome" ∨ c = "Start" ∨ c = "End" then .error .keyError
      else
        match mapExcept serializeRow (bedgraphRows c tsv bed) with
        | .error e => .error e
        | .ok lines => .ok (outputPath arg1 c, lines)
    else .error .keyError)

/-- Observable outcome of the emission loop: the files written (in order)
and the exception that aborted it, if any. -/
structure RunResult where
  writes : List (String × List String)
  err : Option Err
deriving DecidableEq

/-- The script's main loop `for column in tsv.columns: column_to_bedgraph(...)`
over an explicit list of column labels: a raised exception aborts the loop,
files written by earlier iterations persist. -/
def emitGo (arg1 : String) (tsv : TsvTable) (bed : List BedRow) :
    List String → RunResult
  | [] => ⟨[], none⟩
  | c :: cs =>
    match column_to_bedgraph arg1 c tsv bed with
    | none => emitGo arg1 tsv bed cs
    | some (.error e) => ⟨[], some e⟩
    | some (.ok w) =>
      let r := emitGo arg1 tsv bed cs
      ⟨w :: r.writes, r.err⟩

/-- The main loop over the value table's own columns, in stored order. -/
def emitAll (arg1 : String) (tsv : TsvTable) (bed : List BedRow) : RunResult :=
  emitGo arg1 tsv bed tsv.header

/-- Lines of a text file: split at LF; `read_csv` skips blank lines. -/
def splitLines (txt : String) : List String :=
  ((splitChar '\n' txt.data).map String.mk).filter (· ≠ "")

/-- Fields of one line, split at the tab separator. -/
def splitTabs (line : String) : List String :=
  (splitChar '\t' line.data).map String.mk

/-- Loading of the value table, `pd.read_csv(arg[1], sep='\t')`: missing file
is fatal; the first line is the header; a row with more fields than the
header is a parse error; shorter rows are padded (NaN reads back as the empty
string).  Duplicate header labels are rejected (pandas would rename them, so
a loaded frame never carries two equal labels). -/
def loadTsv (fs : String → Option String) (p : String) : Except Err TsvTable :=
  match fs p with
  | none => .error .fileNotFound
  | some txt =>
    match splitLines txt with
    | [] => .error .parseError
    | h :: body =>
      let header := splitTabs h
      let rows := body.map splitTabs
      if header.Nodup ∧ ∀ r ∈ rows, r.length ≤ header.length then
        .ok ⟨header, rows.map (fun r => r ++ List.replicate (header.length - r.length) "")⟩
      else .error .parseError

/-- Four fields into a coordinate row. -/
def toBedRow : List String → Option BedRow
  | [a, b, c, d] => some ⟨a, b, c, d⟩
  | _ => none

/-- Loading of the coordinate table,
`pd.read_csv(arg[2], sep='\t', names=['Chromosome','Start','End','peak_id'])`:
missing file is fatal, every line must split into exactly four fields. -/
def loadBed (fs : String → Option String) (p : String) : Except Err (List BedRow) :=
  match fs p with
  | none => .error .fileNotFound
  | some txt =>
    let rows := (splitLines txt).map splitTabs
    if ∀ r ∈ rows, r.length = 4 then .ok (rows.filterMap toBedRow)
    else .error .parseError

/-- The whole program: both loads run at module level before the loop, so a
load failure aborts with no file written; otherwise the loop runs over the
value table's columns. -/
def run (fs : String → Option String) (arg1 arg2 : String) : RunResult :=
  match loadTsv fs arg1 with
  | .error e => ⟨[], some e⟩
  | .ok tsv =>
    match loadBed fs arg2 with
    | .error e => ⟨[], some e⟩
    | .ok bed => emitAll arg1 tsv bed

/-- Trailing `'/'` characters removed, as Python's `rstrip('/')`. -/
def rstripSlashes (s : String) : String :=
  ⟨(s.data.reverse.dropWhile (· == '/')).reverse⟩

/-- Modelled from the spec: `os.path.dirname` for POSIX paths — the spec
directs the implementer to "the target environment's standard
path/directory-extraction facility".  Everything up to the last separator;
trailing separators are stripped unless the result consists of separators
only. -/
def pyDirname (p : String) : String :=
  let head := outDir p
  if head = "" then head
  else if head.data.all (· == '/') then head
  else rstripSlashes head

/-- Modelled from the spec: `os.path.join` for a relative second component —
the spec's "directory component … joined with `<column_name>.bedgraph`". -/
def pyJoin (d f : String) : String :=
  if d = "" then f
  else if d.data.getLast? = some '/' then d ++ f
  else d ++ "/" ++ f

/-- Per-column call outcomes that do not abort the loop. -/
def noErr : Option (Except Err (String × List String)) → Bool
  | some (.error _) => false
  | _ => true

/-- Value table of the specification's worked scenario. -/
def sampleTsv : TsvTable :=
  ⟨["peak_id", "stageA", "stageB"], [["p1", "10", "20"], ["p2", "30", "40"]]⟩

/-- Coordinate table of the specification's worked scenario. -/
def sampleBed : List BedRow :=
  [⟨"chr1", "100", "200", "p1"⟩, ⟨"chr1", "300", "400", "p2"⟩]

/-- File system holding a one-column value table at `"t"` and a one-row
coordinate table at `"b"`. -/
def sampleFs : String → Option String := fun p =>
  if p = "t" then some "peak_id\ts\np1\t7"
  else if p = "b" then some "chr1\t1\t2\tp1"
  else none

/-- Membership transported through a successful `mapExcept`. -/
theorem mapExcept_ok_mem {α β : Type} {f : α → Except Err β} {l : List α} {ys : List β}
    (h : mapExcept f l = .ok ys) {x : α} (hx : x ∈ l) :
    ∃ y, f x = .ok y ∧ y ∈ ys := by
  induction l generalizing ys with
  | nil => cases hx
  | cons a as ih =>
    rw [mapExcept] at h
    cases hfa : f a with
    | error e => rw [hfa] at h; cases h
    | ok b =>
      rw [hfa] at h
      cases hrec : mapExcept f as with
      | error e => rw [hrec] at h; cases h
      | ok bs =>
        rw [hrec] at h
        injection h with h
        subst h
        rcases List.mem_cons.mp hx with rfl | hx
        · exact ⟨b, hfa, List.mem_cons_self ..⟩
        · obtain ⟨y, hy, hmem⟩ := ih hrec hx
          exact ⟨y, hy, List.mem_cons_of_mem _ hmem⟩

/-- Every element of a successful `mapExcept` result is the image of an
element of the input. -/
theorem mapExcept_ok_mem_rev {α β : Type} {f : α → Except Err β} {l : List α} {ys : List β}
    (h : mapExcept f l = .ok ys) {y : β} (hy : y ∈ ys) :
    ∃ x ∈ l, f x = .ok y := by
  induction l generalizing ys with
  | nil =>
    rw [mapExcept] at h
    injection h with h
    subst h
    cases hy
  | cons a as ih =>
    rw [mapExcept] at h
    cases hfa : f a with
    | error e => rw [hfa] at h; cases h
    | ok b =>
      rw [hfa] at h
      cases hrec : mapExcept f as with
      | error e => rw [hrec] at h; cases h
      | ok bs =>
        rw [hrec] at h
        injection h with h
        subst h
        rcases List.mem_cons.mp hy with rfl | hy
        · exact ⟨a, List.mem_cons_self .., hfa⟩
        · obtain ⟨x, hx, hfx⟩ := ih hrec hy
          exact ⟨x, List.mem_cons_of_mem _ hx, hfx⟩

/-- `mapExcept` succeeds when every element succeeds. -/
theorem mapExcept_ok_of_all {α β : Type} {f : α → Except Err β} {l : List α}
    (h : ∀ x ∈ l, ∃ y, f x = .ok y) :
    ∃ ys, mapExcept f l = .ok ys := by
  induction l with
  | nil => exact ⟨[], rfl⟩
  | cons a as ih =>
    obtain ⟨b, hb⟩ := h a (List.mem_cons_self ..)
    obtain ⟨bs, hbs⟩ := ih (fun x hx => h x (List.mem_cons_of_mem _ hx))
    exact ⟨b :: bs, by rw [mapExcept, hb, hbs]⟩

/-- A successful `mapExcept` over an appended list splits into successful
runs over the two parts. -/
theorem mapExcept_append_ok {α β : Type} {f : α → Except Err β} {l₁ l₂ : List α} {ys : List β}
    (h : mapExcept f (l₁ ++ l₂) = .ok ys) :
    ∃ ys₁ ys₂, ys = ys₁ ++ ys₂ ∧ mapExcept f l₁ = .ok ys₁ ∧ mapExcept f l₂ = .ok ys₂ := by
  induction l₁ generalizing ys with
  | nil => exact ⟨[], ys, rfl, rfl, h⟩
  | cons a as ih =>
    rw [List.cons_append, mapExcept] at h
    cases hfa : f a with
    | error e => rw [hfa] at h; cases h
    | ok b =>
      rw [hfa] at h
      cases hrec : mapExcept f (as ++ l₂) with
      | error e => rw [hrec] at h; cases h
      | ok bs =>
        rw [hrec] at h
        injection h with h
        subst h
        obtain ⟨ys₁, ys₂, rfl, h₁, h₂⟩ := ih hrec
        exact ⟨b :: ys₁, ys₂, rfl, by rw [mapExcept, hfa, h₁], h₂⟩

/-- A field free of double quotes serializes successfully. -/
theorem serializeField_ok_of_noQuote {s : String} (h : hasChar s '"' = false) :
    ∃ t, serializeField s = .ok t := by
  rw [serializeField]
  simp only [h, Bool.false_eq_true, if_false]
  split <;> exact ⟨_, rfl⟩

/-- A plain field (no double quote, tab, CR or LF) serializes to itself. -/
theorem serializeField_plain {s : String} (hq : hasChar s '"' = false)
    (ht : hasChar s '\t' = false) (hr : hasChar s '\r' = false)
    (hn : hasChar s '\n' = false) : serializeField s = .ok s := by
  simp [serializeField, hq, ht, hr, hn]

/-- A cell read from a row is one of the row's entries or the empty string. -/
theorem cellOf_mem_or_empty (header : List String) (name : String) (r : List String) :
    cellOf header name r ∈ r ∨ cellOf header name r = "" := by
  rw [cellOf]
  rcases Nat.lt_or_ge (header.indexOf name) r.length with h | h
  · left
    rw [List.getD_eq_getElem _ _ h]
    exact List.getElem_mem ..
  · right
    exact List.getD_eq_default _ _ h

/-- Shape of every joined row: it comes from a value row and a matching
coordinate row and holds exactly the four projected fields. -/
theorem bedgraphRows_mem_shape {c : String} {tsv : TsvTable} {bed : List BedRow}
    {row : List String} (h : row ∈ bedgraphRows c tsv bed) :
    ∃ r ∈ tsv.rows, ∃ b ∈ bed,
      b.peak_id = cellOf tsv.header "peak_id" r ∧
      row = [b.Chromosome, b.Start, b.End, cellOf tsv.header c r] := by
  rw [bedgraphRows] at h
  simp only [List.mem_flatMap, List.mem_map, List.mem_filter] at h
  obtain ⟨r, hr, b, ⟨hbmem, hbk⟩, rfl⟩ := h
  exact ⟨r, hr, b, hbmem, by simpa using hbk, rfl⟩

/-- The per-column call is a no-op exactly for the key column. -/
theorem ctb_none_iff {a c : String} {tsv : TsvTable} {bed : List BedRow} :
    column_to_bedgraph a c tsv bed = none ↔ c = "peak_id" := by
  rw [column_to_bedgraph]
  by_cases h : c = "peak_id" <;> simp [h]

/-- Inversion of a successful per-column call: the column is not the key,
the path is the computed output path, and every row serialized. -/
theorem ctb_ok_inv {a c : String} {tsv : TsvTable} {bed : List BedRow}
    {p : String} {lines : List String}
    (h : column_to_bedgraph a c tsv bed = some (.ok (p, lines))) :
    c ≠ "peak_id" ∧ p = outputPath a c ∧
    mapExcept serializeRow (bedgraphRows c tsv bed) = .ok lines := by
  rw [column_to_bedgraph] at h
  by_cases h1 : c = "peak_id"
  · simp [h1] at h
  rw [if_neg h1] at h
  injection h with h
  by_cases h2 : "peak_id" ∈ tsv.header ∧ c ∈ tsv.header
  · rw [if_pos h2] at h
    by_cases h3 : c = "Chromosome" ∨ c = "Start" ∨ c = "End"
    · rw [if_pos h3] at h; cases h
    rw [if_neg h3] at h
    cases hm : mapExcept serializeRow (bedgraphRows c tsv bed) with
    | error e => rw [hm] at h; cases h
    | ok ls =>
      rw [hm] at h
      have h' := Except.ok.inj h
      exact ⟨h1, (congrArg Prod.fst h').symm,
        congrArg Except.ok (congrArg Prod.snd h')⟩
  · rw [if_neg h2] at h; cases h

/-- Every file the loop writes arises from a successful per-column call on
one of the listed columns. -/
theorem emitGo_writes_shape {a : String} {tsv : TsvTable} {bed : List BedRow}
    {cols : List String} {w : String × List String}
    (h : w ∈ (emitGo a tsv bed cols).writes) :
    ∃ c ∈ cols, column_to_bedgraph a c tsv bed = some (.ok w) := by
  induction cols with
  | nil =>
    rw [emitGo] at h
    exact absurd h (List.not_mem_nil _)
  | cons c cs ih =>
    rw [emitGo] at h
    cases hc : column_to_bedgraph a c tsv bed with
    | none =>
      rw [hc] at h
      obtain ⟨c', hc', hw⟩ := ih h
      exact ⟨c', List.mem_cons_of_mem _ hc', hw⟩
    | some r =>
      cases r with
      | error e =>
        rw [hc] at h
        exact absurd h (List.not_mem_nil _)
      | ok w' =>
        rw [hc] at h
        rcases List.mem_cons.mp h with rfl | h
        · exact ⟨c, List.mem_cons_self .., hc⟩
        · obtain ⟨c', hc', hw⟩ := ih h
          exact ⟨c', List.mem_cons_of_mem _ hc', hw⟩

/-- With a fixed first argument, distinct columns get distinct paths. -/
theorem outputPath_inj_col {a c₁ c₂ : String} (h : outputPath a c₁ = outputPath a c₂) :
    c₁ = c₂ := by
  have hd : (outDir a).data ++ (c₁.data ++ ".bedgraph".data) =
      (outDir a).data ++ (c₂.data ++ ".bedgraph".data) := by
    have h' := congrArg String.data h
    simpa [outputPath, String.data_append, List.append_assoc] using h'
  have h2 := List.append_cancel_left hd
  have h3 := List.append_cancel_right h2
  cases c₁
  cases c₂
  exact congrArg String.mk h3

/-- Joined rows only hold quote-free fields when the two tables do. -/
theorem bedgraphRows_fields_noQuote {c : String} {tsv : TsvTable} {bed : List BedRow}
    (hq1 : ∀ r ∈ tsv.rows, ∀ x ∈ r, hasChar x '"' = false)
    (hq2 : ∀ b ∈ bed, hasChar b.Chromosome '"' = false ∧
      hasChar b.Start '"' = false ∧ hasChar b.End '"' = false) :
    ∀ row ∈ bedgraphRows c tsv bed, ∀ f ∈ row, hasChar f '"' = false := by
  intro row hrow f hf
  obtain ⟨r, hr, b, hb, _, rfl⟩ := bedgraphRows_mem_shape hrow
  obtain ⟨hbc, hbs, hbe⟩ := hq2 b hb
  have hcell : hasChar (cellOf tsv.header c r) '"' = false := by
    rcases cellOf_mem_or_empty tsv.header c r with h | h
    · exact hq1 r hr _ h
    · rw [h]; rfl
  simp only [List.mem_cons, List.not_mem_nil, or_false] at hf
  rcases hf with rfl | rfl | rfl | rfl
  · exact hbc
  · exact hbs
  · exact hbe
  · exact hcell

/-- A record of quote-free fields serializes to some line. -/
theorem serializeRow_ok_of_noQuote {row : List String}
    (h : ∀ f ∈ row, hasChar f '"' = false) : ∃ line, serializeRow row = .ok line := by
  obtain ⟨fs, hfs⟩ := mapExcept_ok_of_all (fun x hx => serializeField_ok_of_noQuote (h x hx))
  exact ⟨joinTab fs, by rw [serializeRow, hfs]⟩

/-- A well-named, quote-free column is written to its output path. -/
theorem ctb_ok_of_clean {a c : String} {tsv : TsvTable} {bed : List BedRow}
    (hpk : "peak_id" ∈ tsv.header) (hc : c ∈ tsv.header) (hne : c ≠ "peak_id")
    (hcoll : ¬(c = "Chromosome" ∨ c = "Start" ∨ c = "End"))
    (hq : ∀ row ∈ bedgraphRows c tsv bed, ∀ f ∈ row, hasChar f '"' = false) :
    ∃ lines, column_to_bedgraph a c tsv bed = some (.ok (outputPath a c, lines)) := by
  obtain ⟨ls, hls⟩ :=
    mapExcept_ok_of_all (fun row hrow => serializeRow_ok_of_noQuote (hq row hrow))
  refine ⟨ls, ?_⟩
  rw [column_to_bedgraph, if_neg hne, if_pos ⟨hpk, hc⟩, if_neg hcoll, hls]

/-- With well-named columns and quote-free tables, the loop never aborts and
writes exactly one file per non-key column, at that column's output path,
in column order. -/
theorem emitGo_clean {a : String} {tsv : TsvTable} {bed : List BedRow} {cols : List String}
    (hpk : "peak_id" ∈ tsv.header) (hcols : ∀ c ∈ cols, c ∈ tsv.header)
    (hcoll : ∀ c ∈ cols, ¬(c = "Chromosome" ∨ c = "Start" ∨ c = "End"))
    (hq : ∀ c, ∀ row ∈ bedgraphRows c tsv bed, ∀ f ∈ row, hasChar f '"' = false) :
    (emitGo a tsv bed cols).err = none ∧
    (emitGo a tsv bed cols).writes.map Prod.fst =
      (cols.filter (· ≠ "peak_id")).map (outputPath a) := by
  induction cols with
  | nil => exact ⟨rfl, rfl⟩
  | cons c cs ih =>
    have ih' := ih (fun x hx => hcols x (List.mem_cons_of_mem _ hx))
      (fun x hx => hcoll x (List.mem_cons_of_mem _ hx))
    by_cases hc : c = "peak_id"
    · subst hc
      rw [emitGo, ctb_none_iff.mpr rfl]
      rw [List.filter_cons_of_neg (by simp)]
      exact ih'
    · obtain ⟨ls, hls⟩ := ctb_ok_of_clean hpk (hcols c (List.mem_cons_self ..)) hc
        (hcoll c (List.mem_cons_self ..)) (hq c)
      rw [emitGo, hls]
      rw [List.filter_cons_of_pos (by simp [hc])]
      exact ⟨ih'.1, by simpa using ih'.2⟩

/-- Closed shape of the directory-string fold: it equals its accumulator or
ends in a separator. -/
theorem foldl_slash_shape : ∀ (l : List String) (init : String),
    (l.map (fun x => x ++ "/")).foldl (· ++ ·) init = init ∨
    ∃ s : String, (l.map (fun x => x ++ "/")).foldl (· ++ ·) init = s ++ "/" := by
  intro l
  induction l with
  | nil => exact fun init => Or.inl rfl
  | cons x xs ih =>
    intro init
    rw [List.map_cons, List.foldl_cons]
    rcases ih (init ++ (x ++ "/")) with h | ⟨s, hs⟩
    · exact Or.inr ⟨init ++ x, by rw [h, String.append_assoc]⟩
    · exact Or.inr ⟨s, hs⟩

/-- The script's directory string is empty or ends in a separator. -/
theorem outDir_shape (p : String) : outDir p = "" ∨ ∃ s : String, outDir p = s ++ "/" :=
  foldl_slash_shape _ ""

/-- Whenever the segment right before the final one is non-empty (or the
directory string consists of separators only), the script's concatenated
path agrees with dirname followed by join. -/
theorem outputPath_eq_pyJoin {p : String} (c : String)
    (hgood : ((outDir p).data.reverse.drop 1).head? ≠ some '/' ∨
      (outDir p).data.all (· == '/') = true) :
    outputPath p c = pyJoin (pyDirname p) (c ++ ".bedgraph") := by
  rcases outDir_shape p with h0 | ⟨s, hs⟩
  · simp only [outputPath, pyDirname, pyJoin, h0]
    simp
  · have hne : outDir p ≠ "" := by
      rw [hs]
      intro h
      have hd := congrArg String.data h
      simp [String.data_append] at hd
    have hdata : (outDir p).data = s.data ++ ['/'] := by
      rw [hs, String.data_append]
    by_cases hall : (outDir p).data.all (· == '/') = true
    · have hdirname : pyDirname p = outDir p := by
        simp only [pyDirname]
        rw [if_neg hne, if_pos hall]
      have hlast : (outDir p).data.getLast? = some '/' := by
        rw [hdata]
        exact List.getLast?_concat ..
      rw [outputPath, hdirname, pyJoin, if_neg hne, if_pos hlast, String.append_assoc]
    · have hgood1 : ((outDir p).data.reverse.drop 1).head? ≠ some '/' :=
        hgood.resolve_right hall
      have hrev : (outDir p).data.reverse = '/' :: s.data.reverse := by
        rw [hdata]
        simp
      have hsrev : s.data.reverse.head? ≠ some '/' := by
        rw [hrev] at hgood1
        simpa using hgood1
      have hdropId : ∀ l : List Char, l.head? ≠ some '/' →
          l.dropWhile (· == '/') = l := by
        intro l hl
        cases l with
        | nil => rfl
        | cons x xs =>
          have hx : ¬ x = '/' := by simpa using hl
          simp [List.dropWhile_cons, hx]
      have hstrip : rstripSlashes (outDir p) = s := by
        rw [rstripSlashes, hrev]
        have h1 : ('/' :: s.data.reverse).dropWhile (· == '/') =
            s.data.reverse.dropWhile (· == '/') := by
          simp [List.dropWhile_cons]
        rw [h1, hdropId _ hsrev, List.reverse_reverse]
      have hsne : s ≠ "" := by
        intro h
        apply hall
        rw [hdata, h]
        rfl
      have hdirname : pyDirname p = s := by
        simp only [pyDirname]
        rw [if_neg hne, if_neg hall, hstrip]
      have hslast : ¬ s.data.getLast? = some '/' := by
        rw [List.getLast?_eq_head?_reverse]
        exact hsrev
      rw [outputPath, hdirname, pyJoin, if_neg hsne, if_neg hslast, hs, String.append_assoc]

/-- Every file a full run writes sits at the output path of some non-key
column computed from the first argument alone. -/
theorem run_writes_shape {fs : String → Option String} {a₁ a₂ : String}
    {w : String × List String} (h : w ∈ (run fs a₁ a₂).writes) :
    ∃ c, c ≠ "peak_id" ∧ w.1 = outputPath a₁ c := by
  rw [run] at h
  cases hT : loadTsv fs a₁ with
  | error e =>
    rw [hT] at h
    exact absurd h (List.not_mem_nil _)
  | ok tsv =>
    rw [hT] at h
    cases hB : loadBed fs a₂ with
    | error e =>
      rw [hB] at h
      exact absurd h (List.not_mem_nil _)
    | ok bed =>
      rw [hB] at h
      unfold emitAll at h
      obtain ⟨c, _, hok⟩ := emitGo_writes_shape h
      obtain ⟨hne, hp, _⟩ := ctb_ok_inv hok
      exact ⟨c, hne, hp⟩

/-- C1 (join correctness): for every value row whose peak key occurs exactly
once in the coordinate table, and every successful per-column call for a
non-key column, the joined frame holds the row
`(Chromosome, Start, End, value-of-that-column)` taken from the matching
pair — four fields, nothing more — and the written file holds its
serialized line. -/
theorem C1_join_correctness {a c : String} {tsv : TsvTable} {bed : List BedRow}
    {r : List String} {b : BedRow} {p : String} {lines : List String}
    (hr : r ∈ tsv.rows)
    (hb : bed.filter (fun x => x.peak_id == cellOf tsv.header "peak_id" r) = [b])
    (hout : column_to_bedgraph a c tsv bed = some (.ok (p, lines))) :
    [b.Chromosome, b.Start, b.End, cellOf tsv.header c r] ∈ bedgraphRows c tsv bed ∧
    ∃ line ∈ lines,
      serializeRow [b.Chromosome, b.Start, b.End, cellOf tsv.header c r] = .ok line := by
  have hmem : [b.Chromosome, b.Start, b.End, cellOf tsv.header c r] ∈
      bedgraphRows c tsv bed := by
    rw [bedgraphRows]
    refine List.mem_flatMap.mpr ⟨r, hr, ?_⟩
    rw [hb]
    exact List.mem_map.mpr ⟨b, List.mem_cons_self .., rfl⟩
  obtain ⟨_, _, hser⟩ := ctb_ok_inv hout
  obtain ⟨line, hlineok, hlinemem⟩ := mapExcept_ok_mem hser hmem
  exact ⟨hmem, line, hlinemem, hlineok⟩

/-- C1 witness at the specification's worked scenario. -/
theorem C1_witness :
    ["chr1", "100", "200", "10"] ∈ bedgraphRows "stageA" sampleTsv sampleBed ∧
    ∃ line ∈ ["chr1\t100\t200\t10", "chr1\t300\t400\t30"],
      serializeRow ["chr1", "100", "200", "10"] = .ok line :=
  @C1_join_correctness "d/t.tsv" "stageA" sampleTsv sampleBed ["p1", "10", "20"]
    ⟨"chr1", "100", "200", "p1"⟩ "d/stageA.bedgraph"
    ["chr1\t100\t200\t10", "chr1\t300\t400\t30"] (by decide) (by decide) (by decide)

/-- C2 (unmatched-key drop): a value row whose key has no counterpart in the
coordinate table contributes nothing to any output file: the whole emission
loop returns the same files and the same outcome with the row removed, so no
output row derives from it, no error is raised for it, and the run completes
exactly as it would without it. -/
theorem C2_unmatched_drop {a : String} {h : List String} {l₁ l₂ : List (List String)}
    {r : List String} {bed : List BedRow}
    (hk : bed.filter (fun x => x.peak_id == cellOf h "peak_id" r) = []) :
    emitAll a ⟨h, l₁ ++ r :: l₂⟩ bed = emitAll a ⟨h, l₁ ++ l₂⟩ bed := by
  have hbr : ∀ c, bedgraphRows c ⟨h, l₁ ++ r :: l₂⟩ bed =
      bedgraphRows c ⟨h, l₁ ++ l₂⟩ bed := by
    intro c
    rw [bedgraphRows, bedgraphRows]
    dsimp only
    rw [List.flatMap_append, List.flatMap_append, List.flatMap_cons, hk]
    simp
  have hctb : ∀ c, column_to_bedgraph a c ⟨h, l₁ ++ r :: l₂⟩ bed =
      column_to_bedgraph a c ⟨h, l₁ ++ l₂⟩ bed := by
    intro c
    rw [column_to_bedgraph, column_to_bedgraph]
    dsimp only
    rw [hbr c]
  have hgo : ∀ cols, emitGo a ⟨h, l₁ ++ r :: l₂⟩ bed cols =
      emitGo a ⟨h, l₁ ++ l₂⟩ bed cols := by
    intro cols
    induction cols with
    | nil => rfl
    | cons c cs ih => rw [emitGo, emitGo, hctb c, ih]
  unfold emitAll
  exact hgo h

/-- C2 witness: a value table holding only the unmatched key `p3`. -/
theorem C2_witness :
    emitAll "d/t.tsv" ⟨["peak_id", "s"], [["p3", "9"]]⟩ sampleBed =
      emitAll "d/t.tsv" ⟨["peak_id", "s"], []⟩ sampleBed :=
  @C2_unmatched_drop "d/t.tsv" ["peak_id", "s"] [] [] ["p3", "9"] sampleBed (by decide)

/-- C3 (key-column exclusion): the per-column call on `peak_id` is the
guarded no-op, and no write of any emission loop targets the path the key
column would get, so a `peak_id.bedgraph` file is never produced. -/
theorem C3_key_excluded :
    (∀ (a : String) (tsv : TsvTable) (bed : List BedRow),
      column_to_bedgraph a "peak_id" tsv bed = none) ∧
    (∀ (a : String) (tsv : TsvTable) (bed : List BedRow) (w : String × List String),
      w ∈ (emitAll a tsv bed).writes → w.1 ≠ outputPath a "peak_id") := by
  constructor
  · intro a tsv bed
    exact ctb_none_iff.mpr rfl
  · intro a tsv bed w hw
    unfold emitAll at hw
    obtain ⟨c, _, hok⟩ := emitGo_writes_shape hw
    obtain ⟨hne, hp, _⟩ := ctb_ok_inv hok
    rw [hp]
    intro heq
    exact hne (outputPath_inj_col heq)

/-- C3 witness at the specification's worked scenario. -/
theorem C3_witness :
    column_to_bedgraph "d/t.tsv" "peak_id" sampleTsv sampleBed = none ∧
    ("d/stageA.bedgraph",
      ["chr1\t100\t200\t10", "chr1\t300\t400\t30"]).1 ≠ outputPath "d/t.tsv" "peak_id" :=
  ⟨C3_key_excluded.1 "d/t.tsv" sampleTsv sampleBed,
   C3_key_excluded.2 "d/t.tsv" sampleTsv sampleBed _ (by decide)⟩

/-- Length of a list after removing one distinguished label. -/
theorem length_filter_ne (l : List String) (x : String) :
    (l.filter (· ≠ x)).length = l.length - l.count x := by
  induction l with
  | nil => rfl
  | cons a as ih =>
    by_cases h : a = x
    · subst h
      rw [List.filter_cons_of_neg (by simp), ih]
      simp only [List.count_cons_self, List.length_cons]
      have := List.count_le_length a as
      omega
    · rw [List.filter_cons_of_pos (by simp [h]), List.count_cons_of_ne (Ne.symm h)]
      simp only [List.length_cons]
      rw [ih]
      have := List.count_le_length x as
      omega

/-- C4 (column completeness, amended): provided the value table holds the
label `peak_id` exactly once, no column is named `Chromosome`, `Start` or
`End`, and no joined field contains a double quote, the loop aborts nowhere
and the files written are exactly one per non-key column, at that column's
output path, in column order — that is, (number of columns) − 1 files. -/
theorem C4_column_completeness {a : String} {tsv : TsvTable} {bed : List BedRow}
    (hpk : tsv.header.count "peak_id" = 1)
    (hcoll : ∀ c ∈ tsv.header, ¬(c = "Chromosome" ∨ c = "Start" ∨ c = "End"))
    (hq1 : ∀ r ∈ tsv.rows, ∀ x ∈ r, hasChar x '"' = false)
    (hq2 : ∀ b ∈ bed, hasChar b.Chromosome '"' = false ∧
      hasChar b.Start '"' = false ∧ hasChar b.End '"' = false) :
    (emitAll a tsv bed).err = none ∧
    (emitAll a tsv bed).writes.map Prod.fst =
      (tsv.header.filter (· ≠ "peak_id")).map (outputPath a) ∧
    (emitAll a tsv bed).writes.length = tsv.header.length - 1 := by
  have hmem : "peak_id" ∈ tsv.header := by
    have hpos : 0 < tsv.header.count "peak_id" := by
      rw [hpk]
      exact Nat.one_pos
    exact List.count_pos_iff.mp hpos
  have hq : ∀ c, ∀ row ∈ bedgraphRows c tsv bed, ∀ f ∈ row, hasChar f '"' = false :=
    fun _ => bedgraphRows_fields_noQuote hq1 hq2
  obtain ⟨he, hw⟩ := emitGo_clean hmem (fun _ hc => hc) hcoll hq
  refine ⟨he, hw, ?_⟩
  unfold emitAll
  rw [← List.length_map (emitGo a tsv bed tsv.header).writes Prod.fst]
  rw [hw, List.length_map, length_filter_ne, hpk]

/-- C4 counterexample: a value column named `Chromosome` — a legal sample
name — collides in the merge, the reindex raises a `KeyError`, the run
aborts, and nothing at all is written, against the claimed
one-file-per-non-key-column. -/
theorem C4_counterexample :
    (emitAll "t.tsv" ⟨["peak_id", "Chromosome"], [["p1", "x"]]⟩
      [⟨"chr1", "1", "2", "p1"⟩]).writes.map Prod.fst = [] ∧
    ((⟨["peak_id", "Chromosome"], [["p1", "x"]]⟩ : TsvTable).header.filter
      (· ≠ "peak_id")).map (outputPath "t.tsv") = ["Chromosome.bedgraph"] ∧
    (emitAll "t.tsv" ⟨["peak_id", "Chromosome"], [["p1", "x"]]⟩
      [⟨"chr1", "1", "2", "p1"⟩]).writes.length ≠ 2 - 1 := by
  decide

/-- C4 witness at the specification's worked scenario. -/
theorem C4_witness :
    (emitAll "d/t.tsv" sampleTsv sampleBed).err = none ∧
    (emitAll "d/t.tsv" sampleTsv sampleBed).writes.map Prod.fst =
      (sampleTsv.header.filter (· ≠ "peak_id")).map (outputPath "d/t.tsv") ∧
    (emitAll "d/t.tsv" sampleTsv sampleBed).writes.length = sampleTsv.header.length - 1 :=
  @C4_column_completeness "d/t.tsv" sampleTsv sampleBed (by decide) (by decide)
    (by decide) (by decide)

/-- C5 (format fidelity, amended): provided no joined field holds a double
quote, a tab, a CR or an LF, every emitted line is exactly four fields
joined by single tabs — no header, no index column, no quoting.  (Without
that proviso the writer's QUOTE_MINIMAL rule wraps a delimiter-bearing field
in double quotes and aborts on a quote-bearing field.) -/
theorem C5_format_fidelity {a c : String} {tsv : TsvTable} {bed : List BedRow}
    {p line : String} {lines : List String}
    (hq1 : ∀ r ∈ tsv.rows, ∀ x ∈ r, hasChar x '"' = false ∧ hasChar x '\t' = false ∧
      hasChar x '\r' = false ∧ hasChar x '\n' = false)
    (hq2 : ∀ b ∈ bed, ∀ x ∈ [b.Chromosome, b.Start, b.End],
      hasChar x '"' = false ∧ hasChar x '\t' = false ∧
      hasChar x '\r' = false ∧ hasChar x '\n' = false)
    (hout : column_to_bedgraph a c tsv bed = some (.ok (p, lines)))
    (hline : line ∈ lines) :
    ∃ f₁ f₂ f₃ f₄ : String, line = f₁ ++ "\t" ++ f₂ ++ "\t" ++ f₃ ++ "\t" ++ f₄ ∧
      ∀ f ∈ [f₁, f₂, f₃, f₄], hasChar f '"' = false ∧ hasChar f '\t' = false := by
  obtain ⟨_, _, hser⟩ := ctb_ok_inv hout
  obtain ⟨row, hrow, hrowser⟩ := mapExcept_ok_mem_rev hser hline
  obtain ⟨r, hr, b, hb, _, rfl⟩ := bedgraphRows_mem_shape hrow
  have hplain : ∀ x ∈ [b.Chromosome, b.Start, b.End, cellOf tsv.header c r],
      hasChar x '"' = false ∧ hasChar x '\t' = false ∧
      hasChar x '\r' = false ∧ hasChar x '\n' = false := by
    intro x hx
    have hx' : x = b.Chromosome ∨ x = b.Start ∨ x = b.End ∨
        x = cellOf tsv.header c r := by simpa using hx
    rcases hx' with rfl | rfl | rfl | rfl
    · exact hq2 b hb _ (by simp)
    · exact hq2 b hb _ (by simp)
    · exact hq2 b hb _ (by simp)
    · rcases cellOf_mem_or_empty tsv.header c r with h | h
      · exact hq1 r hr _ h
      · rw [h]
        exact ⟨rfl, rfl, rfl, rfl⟩
  obtain ⟨q1, t1, r1, n1⟩ := hplain b.Chromosome (by simp)
  obtain ⟨q2, t2, r2, n2⟩ := hplain b.Start (by simp)
  obtain ⟨q3, t3, r3, n3⟩ := hplain b.End (by simp)
  obtain ⟨q4, t4, r4, n4⟩ := hplain (cellOf tsv.header c r) (by simp)
  have hser4 : serializeRow [b.Chromosome, b.Start, b.End, cellOf tsv.header c r] =
      .ok (joinTab [b.Chromosome, b.Start, b.End, cellOf tsv.header c r]) := by
    rw [serializeRow]
    simp only [mapExcept, serializeField_plain q1 t1 r1 n1,
      serializeField_plain q2 t2 r2 n2, serializeField_plain q3 t3 r3 n3,
      serializeField_plain q4 t4 r4 n4]
  rw [hser4] at hrowser
  have hline' := Except.ok.inj hrowser
  refine ⟨b.Chromosome, b.Start, b.End, cellOf tsv.header c r, ?_, ?_⟩
  · rw [← hline']
    simp [joinTab, String.append_assoc]
  · intro f hf
    have hf' : f = b.Chromosome ∨ f = b.Start ∨ f = b.End ∨
        f = cellOf tsv.header c r := by simpa using hf
    rcases hf' with rfl | rfl | rfl | rfl
    · exact ⟨q1, t1⟩
    · exact ⟨q2, t2⟩
    · exact ⟨q3, t3⟩
    · exact ⟨q4, t4⟩

/-- C5 counterexample: a loaded cell can hold a tab (pandas reads quoted
input fields); the writer's QUOTE_MINIMAL rule then wraps that field in
double quotes, so the written line holds quote characters and splits into
five tab-separated pieces rather than four. -/
theorem C5_counterexample :
    column_to_bedgraph "t.tsv" "s" ⟨["peak_id", "s"], [["p1", "a\tb"]]⟩
      [⟨"chr1", "1", "2", "p1"⟩] =
      some (.ok ("s.bedgraph", ["chr1\t1\t2\t\"a\tb\""])) ∧
    (splitChar '\t' "chr1\t1\t2\t\"a\tb\"".data).length = 5 ∧
    hasChar "chr1\t1\t2\t\"a\tb\"" '"' = true := by
  decide

/-- C5 witness at the specification's worked scenario. -/
theorem C5_witness :
    ∃ f₁ f₂ f₃ f₄ : String,
      "chr1\t100\t200\t10" = f₁ ++ "\t" ++ f₂ ++ "\t" ++ f₃ ++ "\t" ++ f₄ ∧
      ∀ f ∈ [f₁, f₂, f₃, f₄], hasChar f '"' = false ∧ hasChar f '\t' = false :=
  @C5_format_fidelity "d/t.tsv" "stageA" sampleTsv sampleBed "d/stageA.bedgraph"
    "chr1\t100\t200\t10" ["chr1\t100\t200\t10", "chr1\t300\t400\t30"]
    (by decide) (by decide) (by decide) (by decide)

/-- C6 (cartesian expansion): a key occurring `m` times among the value
rows and `n` times in the coordinate table yields exactly `m * n` joined
rows derived from those value rows; nothing is re-deduplicated. -/
theorem C6_cartesian {c k : String} {tsv : TsvTable} {bed : List BedRow} {m n : Nat}
    (hm : (tsv.rows.filter fun r => cellOf tsv.header "peak_id" r == k).length = m)
    (hn : (bed.filter fun b => b.peak_id == k).length = n)
    (hm1 : 1 ≤ m) (hn1 : 1 ≤ n) :
    (bedgraphRows c ⟨tsv.header,
      tsv.rows.filter fun r => cellOf tsv.header "peak_id" r == k⟩ bed).length = m * n := by
  have key : ∀ l : List (List String), (∀ r ∈ l, cellOf tsv.header "peak_id" r = k) →
      (bedgraphRows c ⟨tsv.header, l⟩ bed).length = l.length * n := by
    intro l hl
    induction l with
    | nil => simp [bedgraphRows]
    | cons r rs ih =>
      have hr := hl r (List.mem_cons_self ..)
      have ihh := ih fun x hx => hl x (List.mem_cons_of_mem _ hx)
      rw [bedgraphRows] at ihh ⊢
      dsimp only at ihh ⊢
      rw [List.flatMap_cons, List.length_append, List.length_map, hr, hn, ihh,
        List.length_cons]
      ring
  rw [key _ fun r hr => by simpa using (List.mem_filter.mp hr).2, hm]

/-- C6 witness: a duplicated key on both sides, two by two. -/
theorem C6_witness :
    (bedgraphRows "s" ⟨["peak_id", "s"],
      ([["p1", "1"], ["p1", "2"]] : List (List String)).filter
        (fun r => cellOf ["peak_id", "s"] "peak_id" r == "p1")⟩
      [⟨"c", "1", "2", "p1"⟩, ⟨"c", "3", "4", "p1"⟩]).length = 2 * 2 :=
  @C6_cartesian "s" "p1" ⟨["peak_id", "s"], [["p1", "1"], ["p1", "2"]]⟩
    [⟨"c", "1", "2", "p1"⟩, ⟨"c", "3", "4", "p1"⟩] 2 2
    (by decide) (by decide) (by decide) (by decide)

/-- C7 counterexample: with an empty segment right before the file name the
script keeps the doubled separator, so the written path differs, as a
string, from dirname followed by join (it denotes the same directory). -/
theorem C7_counterexample :
    outputPath "a//b.tsv" "s" = "a//s.bedgraph" ∧
    pyJoin (pyDirname "a//b.tsv") ("s" ++ ".bedgraph") = "a/s.bedgraph" ∧
    outputPath "a//b.tsv" "s" ≠ pyJoin (pyDirname "a//b.tsv") ("s" ++ ".bedgraph") := by
  decide

/-- C7 (output path, amended): every write of every full run lands at
`outputPath` of the first argument and the written column — independent of
the coordinate-table path — and `outputPath` agrees with dirname followed
by join whenever the segment right before the final one is non-empty or the
directory prefix is all separators: in particular for single-segment
arguments, absolute paths and trailing separators. -/
theorem C7_output_path :
    (∀ (fs : String → Option String) (a₁ a₂ : String) (w : String × List String),
      w ∈ (run fs a₁ a₂).writes → ∃ c, c ≠ "peak_id" ∧ w.1 = outputPath a₁ c) ∧
    (∀ p c : String,
      (((outDir p).data.reverse.drop 1).head? ≠ some '/' ∨
        (outDir p).data.all (· == '/') = true) →
      outputPath p c = pyJoin (pyDirname p) (c ++ ".bedgraph")) :=
  ⟨fun _ _ _ _ h => run_writes_shape h, fun _ c h => outputPath_eq_pyJoin c h⟩

/-- C7 witness: a concrete run, plus the three path classes the claim
names: single-segment, absolute, trailing separator. -/
theorem C7_witness :
    (∃ c, c ≠ "peak_id" ∧
      ("s.bedgraph", ["chr1\t1\t2\t7"]).1 = outputPath "t" c) ∧
    outputPath "t.tsv" "s" = pyJoin (pyDirname "t.tsv") ("s" ++ ".bedgraph") ∧
    outputPath "/a/t.tsv" "s" = pyJoin (pyDirname "/a/t.tsv") ("s" ++ ".bedgraph") ∧
    outputPath "d/" "s" = pyJoin (pyDirname "d/") ("s" ++ ".bedgraph") :=
  ⟨C7_output_path.1 sampleFs "t" "b" _ (by decide),
   C7_output_path.2 "t.tsv" "s" (by decide),
   C7_output_path.2 "/a/t.tsv" "s" (by decide),
   C7_output_path.2 "d/" "s" (by decide)⟩

/-- C8 (read-only tables, independent iterations): the per-column calls
share the two loaded tables as unchanging values, so the loop distributes
over any split of the column list: when the first block raises nothing, the
loop over the whole list writes exactly the files of the two blocks run
separately, in order, and ends in the second block's outcome. -/
theorem C8_iterations_independent {a : String} {tsv : TsvTable} {bed : List BedRow}
    {cols₁ cols₂ : List String}
    (h : ∀ c ∈ cols₁, noErr (column_to_bedgraph a c tsv bed) = true) :
    emitGo a tsv bed (cols₁ ++ cols₂) =
      ⟨(emitGo a tsv bed cols₁).writes ++ (emitGo a tsv bed cols₂).writes,
       (emitGo a tsv bed cols₂).err⟩ := by
  induction cols₁ with
  | nil => rfl
  | cons c cs ih =>
    have hc := h c (List.mem_cons_self ..)
    have ih' := ih fun x hx => h x (List.mem_cons_of_mem _ hx)
    rw [List.cons_append, emitGo, emitGo]
    cases hctb : column_to_bedgraph a c tsv bed with
    | none => exact ih'
    | some r =>
      cases r with
      | error e =>
        rw [hctb] at hc
        simp [noErr] at hc
      | ok w =>
        rw [ih']
        exact rfl

/-- C8 witness at the specification's worked scenario. -/
theorem C8_witness :
    emitGo "d/t.tsv" sampleTsv sampleBed (["stageA"] ++ ["stageB"]) =
      ⟨(emitGo "d/t.tsv" sampleTsv sampleBed ["stageA"]).writes ++
        (emitGo "d/t.tsv" sampleTsv sampleBed ["stageB"]).writes,
       (emitGo "d/t.tsv" sampleTsv sampleBed ["stageB"]).err⟩ :=
  @C8_iterations_independent "d/t.tsv" sampleTsv sampleBed ["stageA"] ["stageB"] (by decide)

/-- C9 (fail-fast loading): both loads run before the first per-column
call; when either load fails the run carries an error and has written
nothing. -/
theorem C9_fail_fast {fs : String → Option String} {a₁ a₂ : String}
    (h : (∃ e, loadTsv fs a₁ = .error e) ∨ (∃ e, loadBed fs a₂ = .error e)) :
    (run fs a₁ a₂).writes = [] ∧ (run fs a₁ a₂).err ≠ none := by
  rw [run]
  cases hT : loadTsv fs a₁ with
  | error e => exact ⟨rfl, by simp⟩
  | ok tsv =>
    cases hB : loadBed fs a₂ with
    | error e => exact ⟨rfl, by simp⟩
    | ok bed =>
      exfalso
      rcases h with ⟨e, he⟩ | ⟨e, he⟩
      · rw [hT] at he
        cases he
      · rw [hB] at he
        cases he

/-- C9 witness: a missing value-table path. -/
theorem C9_witness :
    (run sampleFs "missing.tsv" "b").writes = [] ∧
    (run sampleFs "missing.tsv" "b").err ≠ none :=
  @C9_fail_fast sampleFs "missing.tsv" "b" (Or.inl ⟨Err.fileNotFound, by decide⟩)

/-- C10 (left-order preservation): the joined rows keep the value table's
row order — under any decomposition, each value row's matches appear as a
contiguous block in position — and serialization maps appended row blocks
to appended line blocks, so file lines inherit the same order. -/
theorem C10_order {c : String} {h : List String} {l₁ l₂ l₃ : List (List String)}
    {r₁ r₂ : List String} {bed : List BedRow} :
    (bedgraphRows c ⟨h, l₁ ++ r₁ :: (l₂ ++ r₂ :: l₃)⟩ bed =
      bedgraphRows c ⟨h, l₁⟩ bed ++
      ((bed.filter fun b => b.peak_id == cellOf h "peak_id" r₁).map fun b =>
        [b.Chromosome, b.Start, b.End, cellOf h c r₁]) ++
      bedgraphRows c ⟨h, l₂⟩ bed ++
      ((bed.filter fun b => b.peak_id == cellOf h "peak_id" r₂).map fun b =>
        [b.Chromosome, b.Start, b.End, cellOf h c r₂]) ++
      bedgraphRows c ⟨h, l₃⟩ bed) ∧
    (∀ (rows₁ rows₂ : List (List String)) (ls : List String),
      mapExcept serializeRow (rows₁ ++ rows₂) = .ok ls →
      ∃ ls₁ ls₂, ls = ls₁ ++ ls₂ ∧ mapExcept serializeRow rows₁ = .ok ls₁ ∧
        mapExcept serializeRow rows₂ = .ok ls₂) := by
  constructor
  · simp [bedgraphRows, List.flatMap_append, List.flatMap_cons, List.append_assoc]
  · exact fun _ _ _ hls => mapExcept_append_ok hls

/-- C10 witness: two matched rows in order, and a concrete split of a
serialized block. -/
theorem C10_witness :
    (bedgraphRows "stageA" ⟨["peak_id", "stageA"],
        [] ++ ["p1", "1"] :: ([] ++ ["p2", "2"] :: [])⟩ sampleBed =
      bedgraphRows "stageA" ⟨["peak_id", "stageA"], []⟩ sampleBed ++
      ((sampleBed.filter fun b =>
          b.peak_id == cellOf ["peak_id", "stageA"] "peak_id" ["p1", "1"]).map fun b =>
        [b.Chromosome, b.Start, b.End, cellOf ["peak_id", "stageA"] "stageA" ["p1", "1"]]) ++
      bedgraphRows "stageA" ⟨["peak_id", "stageA"], []⟩ sampleBed ++
      ((sampleBed.filter fun b =>
          b.peak_id == cellOf ["peak_id", "stageA"] "peak_id" ["p2", "2"]).map fun b =>
        [b.Chromosome, b.Start, b.End, cellOf ["peak_id", "stageA"] "stageA" ["p2", "2"]]) ++
      bedgraphRows "stageA" ⟨["peak_id", "stageA"], []⟩ sampleBed) ∧
    (∃ ls₁ ls₂, (["1", "2"] : List String) = ls₁ ++ ls₂ ∧
      mapExcept serializeRow [["1"]] = .ok ls₁ ∧
      mapExcept serializeRow [["2"]] = .ok ls₂) :=
  have h := @C10_order "stageA" ["peak_id", "stageA"] [] [] [] ["p1", "1"] ["p2", "2"] sampleBed
  ⟨h.1, h.2 [["1"]] [["2"]] ["1", "2"] (by decide)⟩
